import Mathlib

/-!
Verification of the objutils C sources (ELF-like binary object reader,
S-record line codec, record-format compiler) against their design
specification.  All definitions are shallow embeddings of the C code:
machine integers become `Nat` with explicit `% 2 ^ w` where overflow or
truncation matters, files become byte lists, and fallible operations
return `Except`/`Option`.
-/

namespace ObjUtils

/-! ## StdTypes.h byte-access macros

`LOBYTE`/`HIBYTE`/`LOWORD`/`HIWORD`/`MAKEWORD`/`MAKEDWORD` from
`inc/StdTypes.h` lines 82-89.  The C expressions mask with `& 0xff` /
`& 0xffff` and shift; on `Nat` the mask is `% 256` / `% 65536` and the
shifted disjoint ranges combine by `+` (the C `|` of disjoint bit
ranges). -/

def LOBYTE (w : Nat) : Nat := w % 256

def HIBYTE (w : Nat) : Nat := (w / 256) % 256

def LOWORD (dw : Nat) : Nat := dw % 65536

def HIWORD (dw : Nat) : Nat := (dw / 65536) % 65536

def MAKEWORD (h l : Nat) : Nat := (h % 256) * 256 + (l % 256)

def MAKEDWORD (h l : Nat) : Nat := (h % 65536) * 65536 + (l % 65536)

/-! ## Byte-swap primitives (src/ElfIO.c lines 295-310) -/

def ElfIo_Convert16U (w : Nat) : Nat := MAKEWORD (LOBYTE w) (HIBYTE w)

def ElfIo_Convert32U (dw : Nat) : Nat :=
  MAKEDWORD (MAKEWORD (LOBYTE (LOWORD dw)) (HIBYTE (LOWORD dw)))
            (MAKEWORD (LOBYTE (HIWORD dw)) (HIBYTE (HIWORD dw)))

theorem ElfIo_Convert16U_bytes (b0 b1 : Nat) (h0 : b0 < 256) (h1 : b1 < 256) :
    ElfIo_Convert16U (b0 + 256 * b1) = b1 + 256 * b0 := by
  unfold ElfIo_Convert16U MAKEWORD LOBYTE HIBYTE
  omega

theorem ElfIo_Convert32U_bytes (b0 b1 b2 b3 : Nat)
    (h0 : b0 < 256) (h1 : b1 < 256) (h2 : b2 < 256) (h3 : b3 < 256) :
    ElfIo_Convert32U (b0 + 256 * b1 + 65536 * b2 + 16777216 * b3) =
      b3 + 256 * b2 + 65536 * b1 + 16777216 * b0 := by
  have key : ElfIo_Convert32U (b0 + 256 * b1 + 65536 * b2 + 16777216 * b3) =
      MAKEDWORD
        (ElfIo_Convert16U ((b0 + 256 * b1 + 65536 * b2 + 16777216 * b3) % 65536))
        (ElfIo_Convert16U ((b0 + 256 * b1 + 65536 * b2 + 16777216 * b3) / 65536 % 65536)) := rfl
  have hlo : (b0 + 256 * b1 + 65536 * b2 + 16777216 * b3) % 65536 = b0 + 256 * b1 := by
    omega
  have hhi : (b0 + 256 * b1 + 65536 * b2 + 16777216 * b3) / 65536 % 65536 = b2 + 256 * b3 := by
    omega
  rw [key, hlo, hhi, ElfIo_Convert16U_bytes b0 b1 h0 h1, ElfIo_Convert16U_bytes b2 b3 h2 h3]
  unfold MAKEDWORD
  clear key hlo hhi
  omega

theorem ElfIo_Convert16U_lt (w : Nat) : ElfIo_Convert16U w < 65536 := by
  unfold ElfIo_Convert16U MAKEWORD LOBYTE HIBYTE
  omega

theorem ElfIo_Convert32U_lt (dw : Nat) : ElfIo_Convert32U dw < 4294967296 := by
  unfold ElfIo_Convert32U MAKEDWORD MAKEWORD LOBYTE HIBYTE LOWORD HIWORD
  omega

theorem ElfIo_Convert16U_involutive (w : Nat) (h : w < 65536) :
    ElfIo_Convert16U (ElfIo_Convert16U w) = w := by
  have hw : w = w % 256 + 256 * (w / 256) := by omega
  rw [hw]
  rw [ElfIo_Convert16U_bytes (w % 256) (w / 256) (by omega) (by omega)]
  rw [ElfIo_Convert16U_bytes (w / 256) (w % 256) (by omega) (by omega)]

theorem ElfIo_Convert32U_involutive (dw : Nat) (h : dw < 4294967296) :
    ElfIo_Convert32U (ElfIo_Convert32U dw) = dw := by
  have hw : dw = dw % 256 + 256 * (dw / 256 % 256) + 65536 * (dw / 65536 % 256) +
      16777216 * (dw / 16777216) := by omega
  rw [hw]
  rw [ElfIo_Convert32U_bytes (dw % 256) (dw / 256 % 256) (dw / 65536 % 256)
    (dw / 16777216) (by omega) (by omega) (by omega) (by omega)]
  rw [ElfIo_Convert32U_bytes (dw / 16777216) (dw / 65536 % 256) (dw / 256 % 256)
    (dw % 256) (by omega) (by omega) (by omega) (by omega)]

/-- C9: `ElfIo_Convert16U` exchanges the two bytes of a 16-bit value and
`ElfIo_Convert32U` reverses the order of the four bytes of a 32-bit value;
both are total functions of their numeric argument (no error conditions,
witnessed by the definitions being total) and both are involutions on
values of their width. -/
theorem claim_C9_convert_swap_involution :
    (∀ b0 b1 : Nat, b0 < 256 → b1 < 256 →
      ElfIo_Convert16U (b0 + 256 * b1) = b1 + 256 * b0) ∧
    (∀ b0 b1 b2 b3 : Nat, b0 < 256 → b1 < 256 → b2 < 256 → b3 < 256 →
      ElfIo_Convert32U (b0 + 256 * b1 + 65536 * b2 + 16777216 * b3) =
        b3 + 256 * b2 + 65536 * b1 + 16777216 * b0) ∧
    (∀ w : Nat, w < 65536 → ElfIo_Convert16U (ElfIo_Convert16U w) = w) ∧
    (∀ dw : Nat, dw < 4294967296 →
      ElfIo_Convert32U (ElfIo_Convert32U dw) = dw) := by
  refine ⟨ElfIo_Convert16U_bytes, ElfIo_Convert32U_bytes, ?_, ?_⟩
  · exact fun w h => ElfIo_Convert16U_involutive w h
  · exact fun dw h => ElfIo_Convert32U_involutive dw h

/-- Witness for C9 at concrete inputs. -/
theorem claim_C9_witness :
    ElfIo_Convert16U (0x34 + 256 * 0x12) = 0x12 + 256 * 0x34 ∧
    ElfIo_Convert32U (ElfIo_Convert32U 0xdeadbeef) = 0xdeadbeef := by
  constructor
  · exact claim_C9_convert_swap_involution.1 0x34 0x12 (by decide) (by decide)
  · exact claim_C9_convert_swap_involution.2.2.2 0xdeadbeef (by decide)

/-! ## Host endianness and declared data encoding

`Utl_EndianessType` from `inc/Utl.h`; the host order is a parameter of the
embedding (the C code detects it at run time via `Utl_CheckHostEndianess`,
which only ever returns little or big). -/

inductive Utl_EndianessType where
  | invalidEncoding
  | bigEndian
  | littleEndian
deriving DecidableEq

/-- `ElfIo_StatusType` (inc/ElfIO.h lines 36-43); the second constructor is
the file-I/O failure status (source spelling differs only in its suffix). -/
inductive ElfIo_StatusType where
  | ELFIO_E_OK
  | ELFIO_E_FILEERR
  | ELFIO_E_INVALID
  | ELFIO_E_STATE
  | ELFIO_E_VALUE
  | ELFIO_E_LIMIT
deriving DecidableEq

/-- Byte `i` of a file modelled as a byte list (reads past the end give 0;
real runs never do because the embedding checks lengths first). -/
def byteAt (file : List Nat) (i : Nat) : Nat := file.getD i 0

/-- Value of the 16-bit integer stored at offset `ofs` of a packed struct
when the memory is interpreted by a host of the given byte order (this is
what `fread` into a `#pragma pack(1)` struct field yields). -/
def read16 (host : Utl_EndianessType) (file : List Nat) (ofs : Nat) : Nat :=
  match host with
  | .littleEndian => byteAt file ofs + 256 * byteAt file (ofs + 1)
  | _ => byteAt file (ofs + 1) + 256 * byteAt file ofs

/-- 32-bit analogue of `read16`. -/
def read32 (host : Utl_EndianessType) (file : List Nat) (ofs : Nat) : Nat :=
  match host with
  | .littleEndian =>
      byteAt file ofs + 256 * byteAt file (ofs + 1) +
        65536 * byteAt file (ofs + 2) + 16777216 * byteAt file (ofs + 3)
  | _ =>
      byteAt file (ofs + 3) + 256 * byteAt file (ofs + 2) +
        65536 * byteAt file (ofs + 1) + 16777216 * byteAt file ofs

theorem byteAt_lt (file : List Nat) (hf : ∀ b ∈ file, b < 256) (i : Nat) :
    byteAt file i < 256 := by
  unfold byteAt List.getD
  cases hg : file.get? i with
  | none => simp
  | some v => simpa using hf v (List.get?_mem hg)

theorem read16_swap_big (file : List Nat) (hf : ∀ b ∈ file, b < 256) (ofs : Nat) :
    ElfIo_Convert16U (read16 .bigEndian file ofs) = read16 .littleEndian file ofs := by
  unfold read16
  exact ElfIo_Convert16U_bytes _ _ (byteAt_lt file hf _) (byteAt_lt file hf _)

theorem read16_swap_little (file : List Nat) (hf : ∀ b ∈ file, b < 256) (ofs : Nat) :
    ElfIo_Convert16U (read16 .littleEndian file ofs) = read16 .bigEndian file ofs := by
  unfold read16
  exact ElfIo_Convert16U_bytes _ _ (byteAt_lt file hf _) (byteAt_lt file hf _)

theorem read32_swap_big (file : List Nat) (hf : ∀ b ∈ file, b < 256) (ofs : Nat) :
    ElfIo_Convert32U (read32 .bigEndian file ofs) = read32 .littleEndian file ofs := by
  unfold read32
  exact ElfIo_Convert32U_bytes _ _ _ _ (byteAt_lt file hf _) (byteAt_lt file hf _)
    (byteAt_lt file hf _) (byteAt_lt file hf _)

theorem read32_swap_little (file : List Nat) (hf : ∀ b ∈ file, b < 256) (ofs : Nat) :
    ElfIo_Convert32U (read32 .littleEndian file ofs) = read32 .bigEndian file ofs := by
  unfold read32
  exact ElfIo_Convert32U_bytes _ _ _ _ (byteAt_lt file hf _) (byteAt_lt file hf _)
    (byteAt_lt file hf _) (byteAt_lt file hf _)

/-! ## ELF header (`Elf32_Ehdr`, part_001 lines 154-169, 52 packed bytes) -/

structure Elf32_Ehdr where
  e_ident : List Nat
  e_type : Nat
  e_machine : Nat
  e_version : Nat
  e_entry : Nat
  e_phoff : Nat
  e_shoff : Nat
  e_flags : Nat
  e_ehsize : Nat
  e_phentsize : Nat
  e_phnum : Nat
  e_shentsize : Nat
  e_shnum : Nat
  e_shstrndx : Nat
deriving DecidableEq

/-- `fread((void*)str->header,ELF_HEADER_SIZE,1,str->stream)`: the 52 file
bytes land in the packed struct, so each field holds the host-order
interpretation of its bytes (offsets from the struct layout). -/
def loadEhdr (host : Utl_EndianessType) (file : List Nat) : Elf32_Ehdr where
  e_ident := (List.range 16).map (byteAt file)
  e_type := read16 host file 16
  e_machine := read16 host file 18
  e_version := read32 host file 20
  e_entry := read32 host file 24
  e_phoff := read32 host file 28
  e_shoff := read32 host file 32
  e_flags := read32 host file 36
  e_ehsize := read16 host file 40
  e_phentsize := read16 host file 42
  e_phnum := read16 host file 44
  e_shentsize := read16 host file 46
  e_shnum := read16 host file 48
  e_shstrndx := read16 host file 50

/-- The thirteen swap assignments of `ElfIo_Init` (src/ElfIO.c lines
221-233): every multi-byte header field converted, `e_ident` untouched. -/
def convertEhdr (h : Elf32_Ehdr) : Elf32_Ehdr :=
  { h with
    e_type := ElfIo_Convert16U h.e_type
    e_machine := ElfIo_Convert16U h.e_machine
    e_version := ElfIo_Convert32U h.e_version
    e_entry := ElfIo_Convert32U h.e_entry
    e_phoff := ElfIo_Convert32U h.e_phoff
    e_shoff := ElfIo_Convert32U h.e_shoff
    e_flags := ElfIo_Convert32U h.e_flags
    e_ehsize := ElfIo_Convert16U h.e_ehsize
    e_phentsize := ElfIo_Convert16U h.e_phentsize
    e_phnum := ElfIo_Convert16U h.e_phnum
    e_shentsize := ElfIo_Convert16U h.e_shentsize
    e_shstrndx := ElfIo_Convert16U h.e_shstrndx
    e_shnum := ElfIo_Convert16U h.e_shnum }

/-- `ELF_MAGIC_VALID` (part_001 lines 316-319). 0x45='E', 0x4c='L', 0x46='F'. -/
def ELF_MAGIC_VALID (h : Elf32_Ehdr) : Bool :=
  (h.e_ident.getD 0 0 == 0x7f) && (h.e_ident.getD 1 0 == 0x45) &&
    (h.e_ident.getD 2 0 == 0x4c) && (h.e_ident.getD 3 0 == 0x46)

/-- `ELF_DATA` = `e_ident[EI_DATA]`, `EI_DATA` = 5. -/
def ELF_DATA (h : Elf32_Ehdr) : Nat := h.e_ident.getD 5 0

/-- The `switch (ELF_DATA(str->header))` of `ElfIo_Init`:
`ELFDATA2LSB` = 1, `ELFDATA2MSB` = 2, anything else is invalid. -/
def elfDeclaredEncoding (h : Elf32_Ehdr) : Option Utl_EndianessType :=
  if ELF_DATA h = 1 then some .littleEndian
  else if ELF_DATA h = 2 then some .bigEndian
  else none

/-- Header phase of `ElfIo_Init` in read mode (src/ElfIO.c lines 197-236):
read the 52-byte header (short read is `ELFIO_E_FILEERR`), check the magic,
decode the declared data encoding, and byte-swap every multi-byte header
field exactly once when the host byte order differs from the declared
encoding.  Returns the logical header and the declared encoding. -/
def ElfIo_InitHeader (host : Utl_EndianessType) (file : List Nat) :
    Except ElfIo_StatusType (Elf32_Ehdr × Utl_EndianessType) :=
  if file.length < 52 then .error .ELFIO_E_FILEERR
  else
    let hdr := loadEhdr host file
    if ELF_MAGIC_VALID hdr then
      match elfDeclaredEncoding hdr with
      | some enc => .ok (if host ≠ enc then convertEhdr hdr else hdr, enc)
      | none => .error .ELFIO_E_INVALID
    else .error .ELFIO_E_INVALID

theorem convertEhdr_big (file : List Nat) (hf : ∀ b ∈ file, b < 256) :
    convertEhdr (loadEhdr .bigEndian file) = loadEhdr .littleEndian file := by
  unfold convertEhdr loadEhdr
  simp [read16_swap_big file hf, read32_swap_big file hf]

theorem convertEhdr_little (file : List Nat) (hf : ∀ b ∈ file, b < 256) :
    convertEhdr (loadEhdr .littleEndian file) = loadEhdr .bigEndian file := by
  unfold convertEhdr loadEhdr
  simp [read16_swap_little file hf, read32_swap_little file hf]

/-- C1: after a successful header read the logical header values do not
depend on the host byte order (the swap is applied exactly once, if and
only if host and declared encoding differ), and they always equal the
header as interpreted in the declared encoding. -/
theorem claim_C1_init_endian_correction (file : List Nat)
    (hf : ∀ b ∈ file, b < 256) :
    ElfIo_InitHeader .littleEndian file = ElfIo_InitHeader .bigEndian file ∧
    (∀ host hdr enc, (host = .littleEndian ∨ host = .bigEndian) →
      ElfIo_InitHeader host file = .ok (hdr, enc) → hdr = loadEhdr enc file) := by
  have hidL : (loadEhdr .littleEndian file).e_ident = (List.range 16).map (byteAt file) := rfl
  have hidB : (loadEhdr .bigEndian file).e_ident = (List.range 16).map (byteAt file) := rfl
  have hmagic : ELF_MAGIC_VALID (loadEhdr .littleEndian file) =
      ELF_MAGIC_VALID (loadEhdr .bigEndian file) := rfl
  have henc : elfDeclaredEncoding (loadEhdr .littleEndian file) =
      elfDeclaredEncoding (loadEhdr .bigEndian file) := rfl
  have hencoded : ∀ enc, elfDeclaredEncoding (loadEhdr .littleEndian file) = some enc →
      enc = .littleEndian ∨ enc = .bigEndian := by
    intro enc h
    unfold elfDeclaredEncoding at h
    by_cases h1 : ELF_DATA (loadEhdr .littleEndian file) = 1
    · simp [h1] at h; exact Or.inl h.symm
    · by_cases h2 : ELF_DATA (loadEhdr .littleEndian file) = 2
      · simp [h1, h2] at h; exact Or.inr h.symm
      · simp [h1, h2] at h
  constructor
  · unfold ElfIo_InitHeader
    by_cases hlen : file.length < 52
    · simp [hlen]
    · simp only [hlen, if_false]
      rw [← hmagic]
      by_cases hm : ELF_MAGIC_VALID (loadEhdr .littleEndian file)
      · simp only [hm, if_true]
        rw [← henc]
        cases hv : elfDeclaredEncoding (loadEhdr .littleEndian file) with
        | none => rfl
        | some enc =>
          rcases hencoded enc hv with h | h <;> subst h
          · simp [convertEhdr_big file hf]
          · simp [convertEhdr_little file hf]
      · simp [hm]
  · intro host hdr enc hhost hok
    unfold ElfIo_InitHeader at hok
    by_cases hlen : file.length < 52
    · simp [hlen] at hok
    · simp only [hlen, if_false] at hok
      have hmagic2 : ELF_MAGIC_VALID (loadEhdr host file) =
          ELF_MAGIC_VALID (loadEhdr .littleEndian file) := by
        rcases hhost with h | h <;> subst h <;> rfl
      have henc2 : elfDeclaredEncoding (loadEhdr host file) =
          elfDeclaredEncoding (loadEhdr .littleEndian file) := by
        rcases hhost with h | h <;> subst h <;> rfl
      by_cases hm : ELF_MAGIC_VALID (loadEhdr host file)
      · simp only [hm, if_true] at hok
        cases hv : elfDeclaredEncoding (loadEhdr host file) with
        | none => rw [hv] at hok; exact absurd hok (by simp)
        | some enc2 =>
          rw [hv] at hok
          have hpair := Except.ok.inj hok
          have henc3 : enc2 = enc := congrArg Prod.snd hpair
          subst henc3
          have hhdr : (if host ≠ enc2 then convertEhdr (loadEhdr host file)
              else loadEhdr host file) = hdr := congrArg Prod.fst hpair
          have hval : enc2 = .littleEndian ∨ enc2 = .bigEndian := by
            apply hencoded enc2
            rw [← henc2, hv]
          rcases hhost with h | h <;> subst h <;> rcases hval with h2 | h2 <;> subst h2
          · simpa using hhdr.symm
          · rw [← hhdr]; simp [convertEhdr_little file hf]
          · rw [← hhdr]; simp [convertEhdr_big file hf]
          · simpa using hhdr.symm
      · simp [hm] at hok

/-- A concrete 52-byte little-endian file with valid magic: the ELF magic,
class 1, data encoding 1 (LSB), then zero-filled ident and zeroed fields. -/
def elfSampleFile : List Nat :=
  [0x7f, 0x45, 0x4c, 0x46, 1, 1, 1, 0, 0, 0, 0, 0, 0, 0, 0, 0] ++
    List.replicate 36 0

/-- Witness for C1: a concrete 52-byte little-endian file with valid magic. -/
theorem claim_C1_witness :
    (∀ b ∈ elfSampleFile, b < 256) ∧
    ElfIo_InitHeader .littleEndian elfSampleFile =
      ElfIo_InitHeader .bigEndian elfSampleFile := by
  constructor
  · decide
  · exact (claim_C1_init_endian_correction elfSampleFile (by decide)).1

/-! ## Machine-name lookup (src/ElfIO.c lines 45-133 and 313-331) -/

/-- The 84-entry `Elf_MachineNames` table, verbatim. -/
def Elf_MachineNames : List String := [
    "Unknown machine.",
    "No machine.",
    "AT&T WE 32100.",
    "SPARC.",
    "Intel 80386.",
    "Motorola 68000.",
    "Motorola 88000.",
    "Reserved for future use.",
    "Intel 80860.",
    "MIPS I Architecture.",
    "IBM System/370 Processor.",
    "MIPS RS3000 Little-endian.",
    "Reserved for future use.",
    "Reserved for future use.",
    "Reserved for future use.",
    "Reserved for future use.",
    "Hewlett-Packard PA-RISC.",
    "Reserved for future use.",
    "Fujitsu VPP500.",
    "Enhanced instruction set SPARC.",
    "Intel 80960.",
    "PowerPC.",
    "64-bit PowerPC.",
    "Reserved for future use.",
    "Reserved for future use.",
    "Reserved for future use.",
    "Reserved for future use.",
    "Reserved for future use.",
    "Reserved for future use.",
    "Reserved for future use.",
    "Reserved for future use.",
    "Reserved for future use.",
    "Reserved for future use.",
    "Reserved for future use.",
    "Reserved for future use.",
    "Reserved for future use.",
    "Reserved for future use.",
    "NEC V800.",
    "Fujitsu FR20.",
    "TRW RH-32.",
    "Motorola RCE.",
    "Advanced RISC Machines ARM.",
    "Digital Alpha.",
    "Hitachi SH.",
    "SPARC Version 9.",
    "Siemens Tricore embedded processor.",
    "Argonaut RISC Core, Argonaut Technologies Inc.",
    "Hitachi H8/300.",
    "Hitachi H8/300H.",
    "Hitachi H8S.",
    "Hitachi H8/500.",
    "Intel IA-64 processor architecture.",
    "Stanford MIPS-X.",
    "Motorola ColdFire.",
    "Motorola M68HC12.",
    "Fujitsu MMA Multimedia Accelerator.",
    "Siemens PCP.",
    "Sony nCPU embedded RISC processor.",
    "Denso NDR1 microprocessor.",
    "Motorola Star*Core processor.",
    "Toyota ME16 processor. ",
    "STMicroelectronics ST100 processor.",
    "Advanced Logic Corp. TinyJ embedded processor family.",
    "Reserved for future use.",
    "Reserved for future use.",
    "Reserved for future use.",
    "Reserved for future use.",
    "Siemens FX66 microcontroller.",
    "STMicroelectronics ST9+ 8/16 bit microcontroller.",
    "STMicroelectronics ST7 8-bit microcontroller.",
    "Motorola MC68HC16 Microcontroller.",
    "Motorola MC68HC11 Microcontroller.",
    "Motorola MC68HC08 Microcontroller.",
    "Motorola MC68HC05 Microcontroller.",
    "Silicon Graphics SVx.",
    "STMicroelectronics ST19 8-bit microcontroller.",
    "Digital VAX.",
    "Axis Communications 32-bit embedded processor.",
    "Infineon Technologies 32-bit embedded processor.",
    "Element 14 64-bit DSP Processor.",
    "LSI Logic 16-bit DSP Processor.",
    "Donald Knuth\x27s educational 64-bit processor.",
    "Harvard University machine-independent object files .",
    "SiTera Prism."]

/-- `ELF_NUM_OF_MACHINES` = `SIZEOF_ARRAY(Elf_MachineNames) - 1`. -/
def ELF_NUM_OF_MACHINES : Nat := Elf_MachineNames.length - 1

/-- `ElfIo_GetMachineName`: the branch on `table_index >= ELF_NUM_OF_MACHINES`
followed by the table lookup.  The C code indexes the array directly; the
embedding uses `getD` with default `""`, and the in-bounds theorem shows the
default is never taken. -/
def ElfIo_GetMachineName (machine : Nat) : String :=
  let table_index := if machine ≥ ELF_NUM_OF_MACHINES then 0 else machine + 1
  Elf_MachineNames.getD table_index ""

theorem elf_MachineNames_getD_ne : ∀ i < 84, Elf_MachineNames.getD i "" ≠ "" := by
  decide

/-- C10: for every 16-bit machine identifier the lookup index is in bounds
(identifiers at or above `ELF_NUM_OF_MACHINES` map to index 0, every other
identifier to index identifier+1), the returned string is the table entry
there (never the out-of-range default, hence non-null), and out-of-range
identifiers name the "Unknown machine." entry. -/
theorem claim_C10_machine_name_lookup (machine : Nat) (hm : machine < 65536) :
    (if machine ≥ ELF_NUM_OF_MACHINES then 0 else machine + 1) <
      Elf_MachineNames.length ∧
    ElfIo_GetMachineName machine ≠ "" ∧
    (ELF_NUM_OF_MACHINES ≤ machine →
      ElfIo_GetMachineName machine = "Unknown machine.") := by
  have hlen : Elf_MachineNames.length = 84 := by decide
  have hnum : ELF_NUM_OF_MACHINES = 83 := by decide
  by_cases h : ELF_NUM_OF_MACHINES ≤ machine
  · refine ⟨?_, ?_, ?_⟩
    · simp [ge_iff_le, h, hlen]
    · unfold ElfIo_GetMachineName
      simp only [ge_iff_le, h, if_true]
      exact elf_MachineNames_getD_ne 0 (by omega)
    · intro _
      unfold ElfIo_GetMachineName
      simp only [ge_iff_le, h, if_true]
      decide
  · have hidx : machine + 1 < 84 := by omega
    refine ⟨?_, ?_, ?_⟩
    · simp [ge_iff_le, h, hlen]; omega
    · unfold ElfIo_GetMachineName
      simp only [ge_iff_le, h, if_false]
      exact elf_MachineNames_getD_ne (machine + 1) hidx
    · intro hc; exact absurd hc h
  
/-- Witness for C10 at identifiers 3 (Intel 80386) and 60000 (out of range). -/
theorem claim_C10_witness :
    ElfIo_GetMachineName 3 ≠ "" ∧ ElfIo_GetMachineName 60000 = "Unknown machine." := by
  constructor
  · exact (claim_C10_machine_name_lookup 3 (by decide)).2.1
  · exact (claim_C10_machine_name_lookup 60000 (by decide)).2.2 (by decide)

/-! ## ElfIo_Init entry checks (src/ElfIO.c lines 149-192) -/

inductive ElfIo_Mode where
  | ELFIO_INVALID_MODE
  | ELFIO_READ
  | ELFIO_WRITE
deriving DecidableEq

/-- `ELFIO_MAX_FILENAME_LEN` = `((uint8_t)0xff)` (inc/ElfIO.h line 34). -/
def ELFIO_MAX_FILENAME_LEN : Nat := 0xff

/-- The check sequence at the top of `ElfIo_Init`, in source order: the
already-open guard (`guard == sizeof(ElfIo_Struct) && file_opened`), the
mode check, the file-name length check, then the `fopen` result.  `none`
means all checks passed and `Init` proceeds to the header read.
`structSize` stands for the link-time constant `sizeof(ElfIo_Struct)`. -/
def ElfIo_Init_checks (structSize guard : Nat) (file_opened : Bool)
    (mode : ElfIo_Mode) (file_name_len : Nat) (open_succeeds : Bool) :
    Option ElfIo_StatusType :=
  if guard = structSize ∧ file_opened = true then some .ELFIO_E_STATE
  else if ¬(mode = .ELFIO_READ ∨ mode = .ELFIO_WRITE) then some .ELFIO_E_VALUE
  else if file_name_len > ELFIO_MAX_FILENAME_LEN then some .ELFIO_E_LIMIT
  else if open_succeeds = false then some .ELFIO_E_FILEERR
  else none

/-- C3: `ElfIo_Init` fails with `ELFIO_E_STATE` on an already-open instance
regardless of the other inputs (the check runs on entry, before the length
and open checks), with `ELFIO_E_LIMIT` when the file name exceeds 255
characters, and with `ELFIO_E_FILEERR` when the underlying `fopen` fails. -/
theorem claim_C3_init_error_order (structSize guard : Nat) (file_opened : Bool)
    (mode : ElfIo_Mode) (len : Nat) (openOk : Bool) :
    (guard = structSize → file_opened = true →
      ElfIo_Init_checks structSize guard file_opened mode len openOk =
        some .ELFIO_E_STATE) ∧
    (¬(guard = structSize ∧ file_opened = true) →
      (mode = .ELFIO_READ ∨ mode = .ELFIO_WRITE) → len > 255 →
      ElfIo_Init_checks structSize guard file_opened mode len openOk =
        some .ELFIO_E_LIMIT) ∧
    (¬(guard = structSize ∧ file_opened = true) →
      (mode = .ELFIO_READ ∨ mode = .ELFIO_WRITE) → len ≤ 255 → openOk = false →
      ElfIo_Init_checks structSize guard file_opened mode len openOk =
        some .ELFIO_E_FILEERR) := by
  refine ⟨?_, ?_, ?_⟩
  · intro h1 h2
    simp [ElfIo_Init_checks, h1, h2]
  · intro h1 h2 h3
    simp [ElfIo_Init_checks, h1, h2, ELFIO_MAX_FILENAME_LEN, h3]
  · intro h1 h2 h3 h4
    have h5 : ¬(len > ELFIO_MAX_FILENAME_LEN) := by
      simp [ELFIO_MAX_FILENAME_LEN]; omega
    simp [ElfIo_Init_checks, h1, h2, h5, h4]

/-- Witness for C3 at concrete inputs: an already-open instance, an overlong
name, and a failing open. -/
theorem claim_C3_witness :
    ElfIo_Init_checks 40 40 true .ELFIO_READ 10 true = some .ELFIO_E_STATE ∧
    ElfIo_Init_checks 40 0 false .ELFIO_READ 300 true = some .ELFIO_E_LIMIT ∧
    ElfIo_Init_checks 40 0 false .ELFIO_READ 10 false = some .ELFIO_E_FILEERR := by
  refine ⟨?_, ?_, ?_⟩
  · exact (claim_C3_init_error_order 40 40 true .ELFIO_READ 10 true).1 rfl rfl
  · exact (claim_C3_init_error_order 40 0 false .ELFIO_READ 300 true).2.1
      (by simp) (Or.inl rfl) (by omega)
  · exact (claim_C3_init_error_order 40 0 false .ELFIO_READ 10 false).2.2
      (by simp) (Or.inl rfl) (by omega) rfl

/-! ## ElfIo_Deinit (src/ElfIO.c lines 258-292) -/

/-- The fields of `ElfIo_Struct` that `ElfIo_Deinit` reads or writes.
`sectionLengths` lists `sections[cnt].length` for `cnt < ELF_SHNUM`. -/
structure ElfIo_StructState where
  guard : Nat
  file_opened : Bool
  mode : ElfIo_Mode
  phnum : Nat
  shnum : Nat
  sectionLengths : List Nat
deriving DecidableEq

/-- `ElfIo_Deinit`.  Returns the status, the instance afterwards, and the
list of buffers released (in free order).  `ELFIO_WEAK_PARAM_CHECK` is an
`assert`, a diagnostic trap compiled out in release (NDEBUG) builds that
never alters the returned status; it is modelled as a no-op. -/
def ElfIo_Deinit (s : ElfIo_StructState) :
    ElfIo_StatusType × ElfIo_StructState × List String :=
  if s.file_opened = false ∨ s.mode = .ELFIO_INVALID_MODE then
    (.ELFIO_E_STATE, s, [])
  else
    let freedPh := if s.mode = .ELFIO_READ ∧ s.phnum > 0 then
        ["program_headers"] else []
    let freedSh := if s.mode = .ELFIO_READ ∧ s.shnum > 0 then
        "section_headers" ::
          ((s.sectionLengths.filter (fun l => decide (0 < l))).map
            (fun _ => "section_data")) ++ ["sections"]
      else []
    (.ELFIO_E_OK,
      { s with guard := 0, file_opened := false, mode := .ELFIO_INVALID_MODE },
      freedPh ++ freedSh ++ ["header", "file_name", "stream"])

/-- C5: `ElfIo_Deinit` on an unopened or already-closed instance returns
`ELFIO_E_STATE`, leaves the instance unchanged and frees nothing; a
successful close returns `ELFIO_E_OK` with the opened marker cleared, so a
second close frees nothing (no double free) and returns `ELFIO_E_STATE`. -/
theorem claim_C5_deinit_double_close (s : ElfIo_StructState) :
    (s.file_opened = false → ElfIo_Deinit s = (.ELFIO_E_STATE, s, [])) ∧
    (s.file_opened = true → s.mode ≠ .ELFIO_INVALID_MODE →
      (ElfIo_Deinit s).1 = .ELFIO_E_OK ∧
      (ElfIo_Deinit s).2.1.file_opened = false ∧
      ElfIo_Deinit (ElfIo_Deinit s).2.1 =
        (.ELFIO_E_STATE, (ElfIo_Deinit s).2.1, [])) := by
  constructor
  · intro h
    simp [ElfIo_Deinit, h]
  · intro h1 h2
    have hcond : ¬(s.file_opened = false ∨ s.mode = .ELFIO_INVALID_MODE) := by
      simp [h1, h2]
    refine ⟨?_, ?_, ?_⟩
    · simp [ElfIo_Deinit, hcond]
    · simp [ElfIo_Deinit, hcond]
    · have hclosed : (ElfIo_Deinit s).2.1.file_opened = false := by
        simp [ElfIo_Deinit, hcond]
      simp [ElfIo_Deinit, hcond]

/-- Witness for C5: a freshly closed instance and an open read instance. -/
theorem claim_C5_witness :
    ElfIo_Deinit ⟨0, false, .ELFIO_INVALID_MODE, 0, 0, []⟩ =
      (.ELFIO_E_STATE, ⟨0, false, .ELFIO_INVALID_MODE, 0, 0, []⟩, []) ∧
    (ElfIo_Deinit ⟨40, true, .ELFIO_READ, 1, 2, [4, 0]⟩).1 = .ELFIO_E_OK := by
  constructor
  · exact (claim_C5_deinit_double_close ⟨0, false, .ELFIO_INVALID_MODE, 0, 0, []⟩).1 rfl
  · exact ((claim_C5_deinit_double_close ⟨40, true, .ELFIO_READ, 1, 2, [4, 0]⟩).2
      rfl (by simp)).1

/-! ## ElfIo_ReadSections (src/ElfIO.c lines 432-463) -/

structure Elf32_Shdr where
  sh_name : Nat
  sh_type : Nat
  sh_flags : Nat
  sh_addr : Nat
  sh_offset : Nat
  sh_size : Nat
  sh_link : Nat
  sh_info : Nat
  sh_addralign : Nat
  sh_entsize : Nat
deriving DecidableEq

def SHT_NOBITS : Nat := 8

/-- `MemorySection` (inc/MemSect.h): a loaded section content buffer. -/
structure MemorySection where
  data : List Nat
  length : Nat
deriving DecidableEq

/-- The loop condition `(section->sh_type!=SHT_NOBITS) && (section->sh_size>0)`. -/
def sectionOccupies (s : Elf32_Shdr) : Bool :=
  decide (s.sh_type ≠ SHT_NOBITS) && decide (0 < s.sh_size)

/-- `fseek(stream, ofs, SEEK_SET)` followed by `fread(buf, size, 1, stream)`:
the single-item `fread` yields 1 exactly when `size` bytes are available at
`ofs`, in which case the buffer holds those bytes; otherwise it yields 0 and
`ElfIo_ReadSections` reports `ELFIO_E_FILEERR`. -/
def freadAt (file : List Nat) (ofs size : Nat) : Option (List Nat) :=
  if ofs + size ≤ file.length then some ((file.drop ofs).take size) else none

/-- `ElfIo_ReadSections`: for each section header in order, when the section
occupies file space (`sh_type != SHT_NOBITS` and `sh_size > 0`) allocate a
zero-filled `sh_size`-byte buffer (`malloc` + `memset`), record its length
and read the content from `sh_offset`; otherwise leave the `memset`-cleared
`MemorySection` (empty data, length 0) untouched.  The second result lists
every `(offset, size)` file read that was performed. -/
def ElfIo_ReadSections (file : List Nat) :
    List Elf32_Shdr → Except ElfIo_StatusType (List MemorySection × List (Nat × Nat))
  | [] => .ok ([], [])
  | s :: rest =>
    if sectionOccupies s then
      match freadAt file s.sh_offset s.sh_size with
      | none => .error .ELFIO_E_FILEERR
      | some bytes =>
        match ElfIo_ReadSections file rest with
        | .error e => .error e
        | .ok (secs, trace) =>
            .ok (⟨bytes, s.sh_size⟩ :: secs, (s.sh_offset, s.sh_size) :: trace)
    else
      match ElfIo_ReadSections file rest with
      | .error e => .error e
      | .ok (secs, trace) => .ok (⟨[], 0⟩ :: secs, trace)

/-- C2: on a successful `ElfIo_ReadSections` pass, the file reads performed
are exactly one `(sh_offset, sh_size)` read per section that is not no-bits
and has nonzero size (in particular no read for a no-bits section, whatever
its size); such sections end with a buffer of exactly `sh_size` bytes from
that offset, all other sections keep empty content and length 0. -/
theorem claim_C2_read_sections_iff (file : List Nat) (hs : List Elf32_Shdr)
    (secs : List MemorySection) (trace : List (Nat × Nat))
    (h : ElfIo_ReadSections file hs = .ok (secs, trace)) :
    trace = (hs.filter sectionOccupies).map (fun s => (s.sh_offset, s.sh_size)) ∧
    secs = hs.map (fun s => if sectionOccupies s then
      ⟨(file.drop s.sh_offset).take s.sh_size, s.sh_size⟩ else ⟨[], 0⟩) ∧
    (∀ s ∈ hs, sectionOccupies s = true →
      s.sh_offset + s.sh_size ≤ file.length ∧
      ((file.drop s.sh_offset).take s.sh_size).length = s.sh_size) := by
  induction hs generalizing secs trace with
  | nil =>
    unfold ElfIo_ReadSections at h
    obtain ⟨hsecs, htrace⟩ := Prod.mk.inj (Except.ok.inj h)
    subst hsecs
    subst htrace
    refine ⟨rfl, rfl, ?_⟩
    intro s hmem
    exact absurd hmem (List.not_mem_nil s)
  | cons s rest ih =>
    unfold ElfIo_ReadSections at h
    by_cases hocc : sectionOccupies s
    · simp only [hocc, if_true] at h
      cases hread : freadAt file s.sh_offset s.sh_size with
      | none => rw [hread] at h; exact absurd h (by simp)
      | some bytes =>
        rw [hread] at h
        cases hrec : ElfIo_ReadSections file rest with
        | error e => rw [hrec] at h; exact absurd h (by simp)
        | ok pr =>
          obtain ⟨secs2, trace2⟩ := pr
          rw [hrec] at h
          obtain ⟨hsecs, htrace⟩ := Prod.mk.inj (Except.ok.inj h)
          subst hsecs
          subst htrace
          obtain ⟨ih1, ih2, ih3⟩ := ih secs2 trace2 hrec
          have hbound : s.sh_offset + s.sh_size ≤ file.length := by
            unfold freadAt at hread
            by_cases hb : s.sh_offset + s.sh_size ≤ file.length
            · exact hb
            · rw [if_neg hb] at hread; exact absurd hread (by simp)
          have hbytes : bytes = (file.drop s.sh_offset).take s.sh_size := by
            unfold freadAt at hread
            rw [if_pos hbound] at hread
            exact (Option.some.inj hread).symm
          refine ⟨?_, ?_, ?_⟩
          · rw [ih1]
            simp [hocc]
          · rw [ih2, hbytes]
            simp [hocc]
          · intro t hmem hocct
            rcases List.mem_cons.mp hmem with heq | hmem2
            · subst heq
              refine ⟨hbound, ?_⟩
              rw [List.length_take, List.length_drop]
              omega
            · exact ih3 t hmem2 hocct
    · simp only [hocc, if_false] at h
      cases hrec : ElfIo_ReadSections file rest with
      | error e => rw [hrec] at h; exact absurd h (by simp)
      | ok pr =>
        obtain ⟨secs2, trace2⟩ := pr
        rw [hrec] at h
        obtain ⟨hsecs, htrace⟩ := Prod.mk.inj (Except.ok.inj h)
        subst hsecs
        subst htrace
        obtain ⟨ih1, ih2, ih3⟩ := ih secs2 trace2 hrec
        have hoccf : sectionOccupies s = false := by simpa using hocc
        refine ⟨?_, ?_, ?_⟩
        · rw [ih1]
          simp [hoccf]
        · rw [ih2]
          simp [hoccf]
        · intro t hmem hocct
          rcases List.mem_cons.mp hmem with heq | hmem2
          · subst heq; exact absurd hocct (by simp [hoccf])
          · exact ih3 t hmem2 hocct

/-- A no-bits section header with nonzero size, followed by a loadable one. -/
def sampleShdrs : List Elf32_Shdr :=
  [⟨0, 8, 0, 0, 0, 4, 0, 0, 0, 0⟩, ⟨0, 1, 0, 0, 1, 2, 0, 0, 0, 0⟩]

def sampleSecFile : List Nat := [10, 20, 30]

/-- Witness for C2: the no-bits section (type 8, size 4) triggers no read
and keeps length 0; the loadable one is read in full. -/
theorem claim_C2_witness :
    ElfIo_ReadSections sampleSecFile sampleShdrs =
      .ok ([⟨[], 0⟩, ⟨[20, 30], 2⟩], [(1, 2)]) ∧
    [((1 : Nat), (2 : Nat))] =
      (sampleShdrs.filter sectionOccupies).map (fun s => (s.sh_offset, s.sh_size)) := by
  constructor
  · rfl
  · exact (claim_C2_read_sections_iff sampleSecFile sampleShdrs
      [⟨[], 0⟩, ⟨[20, 30], 2⟩] [(1, 2)] rfl).1

/-! ## S-record checksum (part_002, `S19IO_CalculateChecksum`, lines 31-41) -/

/-- `S19IO_CalculateChecksum`: `sum` is a `uint8_t` accumulated over the
covered bytes, so every addition wraps modulo 256. -/
def S19IO_CalculateChecksum (data : List Nat) : Nat :=
  data.foldl (fun sum b => (sum + b) % 256) 0

theorem s19_checksum_foldl (l : List Nat) :
    ∀ a : Nat, a < 256 → l.foldl (fun sum b => (sum + b) % 256) a = (a + l.sum) % 256 := by
  induction l with
  | nil =>
    intro a ha
    simpa using (Nat.mod_eq_of_lt ha).symm
  | cons hd tl ih =>
    intro a ha
    have hstep : (a + hd) % 256 < 256 := Nat.mod_lt _ (by omega)
    calc (hd :: tl).foldl (fun sum b => (sum + b) % 256) a
        = tl.foldl (fun sum b => (sum + b) % 256) ((a + hd) % 256) := rfl
      _ = ((a + hd) % 256 + tl.sum) % 256 := ih ((a + hd) % 256) hstep
      _ = (a + hd + tl.sum) % 256 := Nat.mod_add_mod _ _ _
      _ = (a + (hd :: tl).sum) % 256 := by rw [List.sum_cons]; ring_nf

theorem s19_checksum_eq_sum (l : List Nat) :
    S19IO_CalculateChecksum l = l.sum % 256 := by
  unfold S19IO_CalculateChecksum
  simpa using s19_checksum_foldl l 0 (by omega)

theorem list_sum_set (l : List Nat) :
    ∀ (i : Nat) (h : i < l.length) (b : Nat),
      (l.set i b).sum + l.get ⟨i, h⟩ = l.sum + b := by
  induction l with
  | nil => intro i h; exact absurd h (by simp)
  | cons hd tl ih =>
    intro i h b
    cases i with
    | zero => simp [List.set]; omega
    | succ j =>
      have hj : j < tl.length := by simpa using h
      have := ih j hj b
      simp only [List.set, List.sum_cons, List.get]
      omega

/-- C6: the record checksum is the wrapping 8-bit sum of the covered bytes
(equal to their sum modulo 256), and flipping any single bit of any covered
byte changes the computed checksum. -/
theorem claim_C6_checksum_sensitivity :
    (∀ data : List Nat, S19IO_CalculateChecksum data = data.sum % 256) ∧
    (∀ (data : List Nat) (i k : Nat) (hi : i < data.length), k < 8 →
      (∀ b ∈ data, b < 256) →
      S19IO_CalculateChecksum (data.set i (data.get ⟨i, hi⟩ ^^^ 2 ^ k)) ≠
        S19IO_CalculateChecksum data) := by
  refine ⟨s19_checksum_eq_sum, ?_⟩
  intro data i k hi hk hb
  intro heq
  have hx : data.get ⟨i, hi⟩ < 256 := hb _ (List.get_mem data i hi)
  have hpow : (2 : Nat) ^ k < 256 := by
    calc (2 : Nat) ^ k < 2 ^ 8 := Nat.pow_lt_pow_right (by omega) hk
      _ = 256 := by norm_num
  have hflip : data.get ⟨i, hi⟩ ^^^ 2 ^ k < 256 :=
    Nat.xor_lt_two_pow (n := 8) (by simpa using hx) (by simpa using hpow)
  have hne : data.get ⟨i, hi⟩ ^^^ 2 ^ k ≠ data.get ⟨i, hi⟩ := by
    intro h2
    have h3 : data.get ⟨i, hi⟩ ^^^ (data.get ⟨i, hi⟩ ^^^ 2 ^ k) =
        data.get ⟨i, hi⟩ ^^^ data.get ⟨i, hi⟩ := congrArg (data.get ⟨i, hi⟩ ^^^ ·) h2
    rw [Nat.xor_cancel_left, Nat.xor_self] at h3
    have h4 : 0 < (2 : Nat) ^ k := Nat.pos_pow_of_pos k (by omega)
    omega
  rw [s19_checksum_eq_sum, s19_checksum_eq_sum] at heq
  have hsum := list_sum_set data i hi (data.get ⟨i, hi⟩ ^^^ 2 ^ k)
  have hmod : (data.set i (data.get ⟨i, hi⟩ ^^^ 2 ^ k)).sum % 256 = data.sum % 256 := heq
  have : (data.get ⟨i, hi⟩ ^^^ 2 ^ k) % 256 = data.get ⟨i, hi⟩ % 256 := by omega
  have : data.get ⟨i, hi⟩ ^^^ 2 ^ k = data.get ⟨i, hi⟩ := by omega
  exact hne this

/-- Witness for C6: checksum of `[1, 2, 3]` is 6, and flipping bit 0 of the
middle byte changes it. -/
theorem claim_C6_witness :
    S19IO_CalculateChecksum [1, 2, 3] = [1, 2, 3].sum % 256 ∧
    S19IO_CalculateChecksum ([1, 2, 3].set 1 ([1, 2, 3].get ⟨1, by decide⟩ ^^^ 2 ^ 0)) ≠
      S19IO_CalculateChecksum [1, 2, 3] := by
  constructor
  · exact claim_C6_checksum_sensitivity.1 [1, 2, 3]
  · exact claim_C6_checksum_sensitivity.2 [1, 2, 3] 1 0 (by decide) (by decide)
      (by decide)

/-! ## ElfIO_GetSymbol (part_004 lines 356-372) -/

/-- `Elf32_Sym` (part_001 lines 411-418): 16 packed bytes; `st_name`,
`st_value`, `st_size` are 32-bit, `st_info`/`st_other` single bytes,
`st_shndx` 16-bit. -/
structure Elf32_Sym where
  st_name : Nat
  st_value : Nat
  st_size : Nat
  st_info : Nat
  st_other : Nat
  st_shndx : Nat
deriving DecidableEq

/-- `ElfIO_GetSymbol`: copies entry `idx` out of the cached symbol-table
section bytes (`((Elf32_Sym*)section->data)[idx]`, fields in host order),
then, when the host byte order differs from the declared encoding, converts
`st_name`/`st_value`/`st_size` with `ElfIo_Convert32U` and assigns
`ElfIo_Convert32U(sym.st_shndx)` back to the 16-bit `st_shndx` field — a C
assignment to `Elf32_Half` that truncates the 32-bit result modulo 2^16.
The cached section bytes themselves are never modified (the function swaps
a local copy). -/
def ElfIO_GetSymbol (host encoding : Utl_EndianessType) (sectionData : List Nat)
    (idx : Nat) : Elf32_Sym :=
  let base := 16 * idx
  let sym : Elf32_Sym :=
    { st_name := read32 host sectionData base
      st_value := read32 host sectionData (base + 4)
      st_size := read32 host sectionData (base + 8)
      st_info := byteAt sectionData (base + 12)
      st_other := byteAt sectionData (base + 13)
      st_shndx := read16 host sectionData (base + 14) }
  if host ≠ encoding then
    { sym with
      st_name := ElfIo_Convert32U sym.st_name
      st_value := ElfIo_Convert32U sym.st_value
      st_size := ElfIo_Convert32U sym.st_size
      st_shndx := ElfIo_Convert32U sym.st_shndx % 65536 }
  else sym

/-- One big-endian `Elf32_Sym` entry: `st_name` = 1, `st_value` = 2,
`st_size` = 3, `st_info` = 0x12, `st_other` = 0x34, `st_shndx` = 1. -/
def sampleSymtabBytes : List Nat :=
  [0, 0, 0, 1, 0, 0, 0, 2, 0, 0, 0, 3, 0x12, 0x34, 0, 1]

/-- C4 (failing evaluation): reading the big-endian symbol entry with
`st_shndx` = 1 on a little-endian host, `ElfIO_GetSymbol` zeroes `st_shndx`
(32-bit swap of the 16-bit field, then truncation), although the field-width
16-bit swap of the same stored value yields the correct 1; the 32-bit fields
are converted correctly. -/
theorem claim_C4_getsymbol_shndx_zeroed :
    (ElfIO_GetSymbol .littleEndian .bigEndian sampleSymtabBytes 0).st_shndx = 0 ∧
    ElfIo_Convert16U (read16 .littleEndian sampleSymtabBytes 14) = 1 ∧
    (ElfIO_GetSymbol .littleEndian .bigEndian sampleSymtabBytes 0).st_value = 2 ∧
    (ElfIO_GetSymbol .littleEndian .bigEndian sampleSymtabBytes 0).st_name = 1 := by
  refine ⟨rfl, rfl, rfl, rfl⟩

/-! ## S-record line scanning (part_002 lines 115-153) -/

inductive S19Io_LineScanningStateType where
  | START
  | READ_LINE
  | FINISHED
deriving DecidableEq

/-- The two C `static` locals of `S19Io_LineScanning` made explicit. -/
structure S19ScanState where
  state : S19Io_LineScanningStateType
  lineNumber : Nat
deriving DecidableEq

/-- `S19Io_LineScanning`: increments the line counter, requires the line to
start with `"S"` (`strncmp(line, START_SYMBOL, 1)`), computes
`type = line[1] - '0'` (`uint8_t` arithmetic, hence `+ 256 - 48` mod 256),
and drives the state machine: the first `S`-line switches `START` →
`READ_LINE` without looking at the type; in `READ_LINE` only types 1, 2, 3
are accepted, anything else prints the `[%04X]: Unexpected Recordtype`
diagnostic carrying the current line number and fails.  Returns the scan
result, the new state, and the diagnostic `(lineNumber, type)` if printed. -/
def S19Io_LineScanning (st : S19ScanState) (line : List Char) :
    Bool × S19ScanState × Option (Nat × Nat) :=
  let lineNumber := st.lineNumber + 1
  if line.headD (Char.ofNat 0) ≠ 'S' then (false, ⟨st.state, lineNumber⟩, none)
  else
    let ty := ((line.getD 1 (Char.ofNat 0)).toNat + 256 - 48) % 256
    match st.state with
    | .START => (true, ⟨.READ_LINE, lineNumber⟩, none)
    | .READ_LINE =>
      if ty = 1 ∨ ty = 2 ∨ ty = 3 then (true, ⟨.READ_LINE, lineNumber⟩, none)
      else (false, ⟨.READ_LINE, lineNumber⟩, some (lineNumber, ty))
    | .FINISHED => (true, ⟨.FINISHED, lineNumber⟩, none)

/-- The line-scanning driver feeding one line at a time (`TxtIo_ScanFile`),
collecting results, final state and diagnostics. -/
def S19Io_scanLines (lines : List (List Char)) :
    List Bool × S19ScanState × List (Nat × Nat) :=
  lines.foldl
    (fun acc line =>
      let r := S19Io_LineScanning acc.2.1 line
      (acc.1 ++ [r.1], r.2.1, acc.2.2 ++ r.2.2.toList))
    ([], ⟨.START, 0⟩, [])

/-- The example S-record file reproduced in the documentation comment of
part_002 itself (one S0 header, four S1 data records, one S5 record count,
one S9 termination record). -/
def s19DocExample : List (List Char) :=
  ["S00600004844521B".data,
   "S1130000285F245F2212226A000424290008237C2A".data,
   "S11300100002000800082629001853812341001813".data,
   "S113002041E900084E42234300182342000824A952".data,
   "S107003000144ED492".data,
   "S5030004F8".data,
   "S9030000FC".data]

/-- C8 (failing evaluation): the counter does increase by exactly one per
line (1-based, and the diagnostic carries it), but scanning the example file
from the scanner's own documentation rejects the S5 record-count line
(number 6, type 5) and the S9 termination line (number 7, type 9), although
S5 and S9 are record types of the format family (`S19Io_RecordType`); only
types 1-3 survive the `READ_LINE` state, while the first line's type is
never examined at all. -/
theorem claim_C8_scanner_rejects_s5_s9 :
    S19Io_scanLines s19DocExample =
      ([true, true, true, true, true, false, false],
        ⟨.READ_LINE, 7⟩, [(6, 5), (7, 9)]) ∧
    (∀ (st : S19ScanState) (line : List Char),
      (S19Io_LineScanning st line).2.1.lineNumber = st.lineNumber + 1) := by
  constructor
  · rfl
  · intro st line
    rcases st with ⟨state, n⟩
    cases state <;> simp only [S19Io_LineScanning] <;> split <;>
      first
      | rfl
      | (split <;> rfl)

/-! ## Record-format compiler (objutils/extensions/hexfile.cpp)

`FormatParser::parse` groups the specification into maximal runs of equal
characters and `translate_format` turns each run into an ECMAScript regex
fragment; the concatenated `"^" + ...` pattern is handed to `std::regex`
(`std::regex_constants::ECMAScript`) and tried with `std::regex_search`.
The embedding reproduces the generated pattern strings character by
character, then gives the generated fragment its ECMAScript meaning with a
small fuel-indexed backtracking matcher (the generated patterns use only
literals, escapes, the `[0-9a-zA-Z]` class, `\s`, `\d`, and the `?`, `+`,
`{n}` quantifiers). -/

inductive RAtom where
  | lit (c : Char)
  | cls (spec : List Char)
  | wsp
deriving DecidableEq

inductive RQuant where
  | one
  | opt
  | plus
  | exactly (n : Nat)
deriving DecidableEq

structure RPiece where
  atom : RAtom
  quant : RQuant
deriving DecidableEq

/-- Character-class membership for the `[...]` contents (ranges `a-b` plus
single characters), as in ECMAScript. -/
def charInClass : List Char → Char → Bool
  | a :: '-' :: b :: rest, c =>
    (a.toNat ≤ c.toNat && c.toNat ≤ b.toNat) || charInClass rest c
  | a :: rest, c => (a == c) || charInClass rest c
  | [], _ => false

/-- ECMAScript `\s` on the ASCII range. -/
def isEcmaWhitespace (c : Char) : Bool :=
  c == ' ' || c == '\t' || c == '\n' || c == '\x0b' || c == '\x0c' || c == '\r'

def matchesAtom : RAtom → Char → Bool
  | .lit a, c => a == c
  | .cls spec, c => charInClass spec c
  | .wsp, c => isEcmaWhitespace c

/-- Splits a `[...]` class body at its closing `]`. -/
def splitClass : List Char → Option (List Char × List Char)
  | [] => none
  | ']' :: rest => some ([], rest)
  | c :: rest =>
    match splitClass rest with
    | some (a, b) => some (c :: a, b)
    | none => none

/-- Reads the digits of a `{n}` quantifier up to the closing `}`. -/
def readRepeatCount : List Char → Nat → Option (Nat × List Char)
  | '}' :: rest, acc => some (acc, rest)
  | c :: rest, acc =>
    if c.isDigit then readRepeatCount rest (acc * 10 + (c.toNat - 48)) else none
  | [], _ => none

/-- Reads the quantifier following an atom, if any. -/
def takeQuant : List Char → Option (RQuant × List Char)
  | '?' :: rest => some (.opt, rest)
  | '+' :: rest => some (.plus, rest)
  | '{' :: rest =>
    match readRepeatCount rest 0 with
    | some (n, rest2) => some (.exactly n, rest2)
    | none => none
  | rest => some (.one, rest)

/-- Lexes an ECMAScript pattern of the generated fragment into atom/quantifier
pieces: `\s` and `\d` are the whitespace and digit classes, any other escaped
character is a literal (so `\(` and `\)` are literal parentheses), `[...]` is a
character class, and a bare special character is refused.  Fuel-indexed; a
pattern of length n lexes within fuel n+1. -/
def lexPattern : Nat → List Char → Option (List RPiece)
  | 0, _ => none
  | _ + 1, [] => some []
  | fuel + 1, '\\' :: c :: rest =>
    let atom := if c == 's' then RAtom.wsp
      else if c == 'd' then RAtom.cls ['0', '-', '9']
      else RAtom.lit c
    (match takeQuant rest with
     | some (q, rest2) =>
       match lexPattern fuel rest2 with
       | some ps => some (⟨atom, q⟩ :: ps)
       | none => none
     | none => none)
  | _ + 1, ['\\'] => none
  | fuel + 1, '[' :: rest =>
    (match splitClass rest with
     | some (spec, rest1) =>
       match takeQuant rest1 with
       | some (q, rest2) =>
         match lexPattern fuel rest2 with
         | some ps => some (⟨RAtom.cls spec, q⟩ :: ps)
         | none => none
       | none => none
     | none => none)
  | fuel + 1, c :: rest =>
    if c == '?' || c == '+' || c == '*' || c == '{' || c == '}' || c == ']' ||
        c == '(' || c == ')' || c == '^' || c == '$' || c == '.' || c == '|' then none
    else
      (match takeQuant rest with
       | some (q, rest2) =>
         match lexPattern fuel rest2 with
         | some ps => some (⟨RAtom.lit c, q⟩ :: ps)
         | none => none
       | none => none)

/-- Backtracking acceptance for a `^`-anchored pattern: does some prefix of
the input match the pieces?  (This is `std::regex_search` with a leading
`^`.)  Greedy/lazy order does not change acceptance.  Fuel-indexed; every
step consumes a piece, an input character, or a repeat count, so depth
`pieces + input + total repeats` suffices. -/
def reMatchP : Nat → List RPiece → List Char → Bool
  | 0, _, _ => false
  | _ + 1, [], _ => true
  | fuel + 1, ⟨a, .one⟩ :: rest, inp =>
    (match inp with
     | c :: inp2 => matchesAtom a c && reMatchP fuel rest inp2
     | [] => false)
  | fuel + 1, ⟨a, .opt⟩ :: rest, inp =>
    (match inp with
     | c :: inp2 => matchesAtom a c && reMatchP fuel rest inp2
     | [] => false) || reMatchP fuel rest inp
  | fuel + 1, ⟨a, .plus⟩ :: rest, inp =>
    (match inp with
     | c :: inp2 =>
       matchesAtom a c &&
         (reMatchP fuel (⟨a, .plus⟩ :: rest) inp2 || reMatchP fuel rest inp2)
     | [] => false)
  | fuel + 1, ⟨_, .exactly 0⟩ :: rest, inp => reMatchP fuel rest inp
  | fuel + 1, ⟨a, .exactly (n + 1)⟩ :: rest, inp =>
    (match inp with
     | c :: inp2 => matchesAtom a c && reMatchP fuel (⟨a, .exactly n⟩ :: rest) inp2
     | [] => false)

/-- `LENGTH_EXPR` (hexfile.cpp line 30): the `R"""(...)"""` raw string
terminates at the first `)"""`, so the stored fragment is
`\(?<length>[0-9a-zA-Z]` — the group parenthesis is escaped. -/
def LENGTH_EXPR : List Char := "\\(?<length>[0-9a-zA-Z]".data

/-- `TYPE_EXPR` (line 31): the raw string ends at `)"""` as well, leaving
`\(?<type>\d\` with a trailing lone backslash. -/
def TYPE_EXPR : List Char := "\\(?<type>\\d\\".data

def ADDRESS_EXPR : List Char := "\\(?<address>[0-9a-zA-Z]".data

def DATA_EXPR : List Char := "\\(?<chunk>[0-9a-zA-Z]+".data

def CHECKSUM_EXPR : List Char := "\\(?<checksum>[0-9a-zA-Z]".data

def ADDR_CHECKSUM_EXPR : List Char := "\\(?<addrChecksum>[0-9a-zA-Z]".data

/-- `MAP_CHAR_TO_GROUP` (hexfile.cpp lines 39-46). -/
def MAP_CHAR_TO_GROUP (c : Char) : Option (List Char) :=
  if c == 'L' then some LENGTH_EXPR
  else if c == 'T' then some TYPE_EXPR
  else if c == 'A' then some ADDRESS_EXPR
  else if c == 'D' then some DATA_EXPR
  else if c == 'C' then some CHECKSUM_EXPR
  else if c == 'B' then some ADDR_CHECKSUM_EXPR
  else none

/-- `std::to_string` of a length. -/
def natDigits (n : Nat) : List Char := (Nat.repr n).data

/-- `FormatParser::translate_format` (hexfile.cpp lines 101-125): a run of a
recognized field letter becomes its fragment plus `{n}` and `\)` (the data
letter `D` gets no `{n}`), a run of spaces becomes `\s{n}`, and a run of any
other character becomes that character repeated. -/
def translate_format (group : List Char) : List Char :=
  let type_code := group.headD (Char.ofNat 0)
  let length := group.length
  match MAP_CHAR_TO_GROUP type_code with
  | some expr =>
    if type_code != 'D' then
      expr ++ '\x7b' :: (natDigits length ++ ['\x7d', '\\', ')'])
    else expr ++ ['\\', ')']
  | none =>
    if type_code == ' ' then
      '\\' :: 's' :: '\x7b' :: (natDigits length ++ ['\x7d'])
    else List.replicate length type_code

/-- The grouping step of `FormatParser::parse` (hexfile.cpp lines 69-80):
state is (emitted groups, current group, previous character), with
`previous_ch` initialised to `'\0'`. -/
def FP_step (st : List (List Char) × List Char × Char) (ch : Char) :
    List (List Char) × List Char × Char :=
  let (emitted, group, previous) := st
  if ch ≠ previous ∧ group ≠ [] then (emitted ++ [group], [ch], ch)
  else (emitted, group ++ [ch], ch)

/-- The maximal runs of equal characters, in order (the trailing group is
flushed after the loop, lines 81-85). -/
def FormatParser_groups (format : List Char) : List (List Char) :=
  let r := format.foldl FP_step ([], [], Char.ofNat 0)
  if r.2.1 ≠ [] then r.1 ++ [r.2.1] else r.1

/-- `FormatParser::parse`: `"^"` plus the concatenated translated groups
(the code translates each group as it is emitted; mapping the translation
over the group list yields the same concatenation). -/
def FormatParser_parse (format : List Char) : List Char :=
  '^' :: ((FormatParser_groups format).map translate_format).flatten

/-- The `FormatParser` constructor check (lines 57-61: empty format throws
`std::invalid_argument`) followed by `parse`. -/
def FormatParser_compile (format : List Char) : Except String (List Char) :=
  if format = [] then .error "Format cannot be empty"
  else .ok (FormatParser_parse format)

/-- Compile the format and run the generated `^`-anchored pattern on a line,
as `FormatParser::parse` does via `std::regex_search`.  `none` means the
format was empty or the generated pattern fell outside the lexed fragment. -/
def FormatParser_regexSearch (format line : List Char) : Option Bool :=
  match FormatParser_compile format with
  | .error _ => none
  | .ok pat =>
    match pat with
    | '^' :: rest =>
      match lexPattern (rest.length + 1) rest with
      | some ps => some (reMatchP (line.length + pat.length + 100) ps line)
      | none => none
    | _ => none

def alnumClassSpec : List Char := "0-9a-zA-Z".data

/-- Modelled from the spec (§4.2 / C7): a run of a recognized field letter
of length n is a fixed-width field of exactly n (alphanumeric) characters —
except the data letter, a variable-width field — and a run of any other
character is a literal-match run requiring that exact character sequence. -/
def specTranslateRun (group : List Char) : RPiece :=
  let c := group.headD (Char.ofNat 0)
  let n := group.length
  if c == 'L' || c == 'T' || c == 'A' || c == 'C' || c == 'B' then
    ⟨.cls alnumClassSpec, .exactly n⟩
  else if c == 'D' then ⟨.cls alnumClassSpec, .plus⟩
  else ⟨.lit c, .exactly n⟩

/-- Modelled from the spec: the compiled form of a specification, failing
(`MalformedSpec`) on the empty specification. -/
def specFormatCompile (format : List Char) : Option (List RPiece) :=
  if format = [] then none
  else some ((FormatParser_groups format).map specTranslateRun)

/-- Modelled from the spec: match a line against the spec-described compiled
format. -/
def specFormatMatch (format line : List Char) : Option Bool :=
  (specFormatCompile format).map
    (fun ps => reMatchP (line.length + format.length + 100) ps line)

/-- The example from `main` in hexfile.cpp itself: format
`"LL AAAA:DD CCCC"` run against the input line `"11 1234:56 5667  "`. -/
def hexExampleFormat : List Char := "LL AAAA:DD CCCC".data

def hexExampleLine : List Char := "11 1234:56 5667  ".data

/-- C7 (failing evaluation): the empty specification is rejected and the
grouping is by maximal runs, but the generated fragments escape the group
parenthesis (`\(?<length>...`), so under ECMAScript semantics a field run
does not compile to a fixed-width field — the pattern demands an optional
literal `(` followed by the literal text `<length>` — and the code's own
example line fails to match its own example format, while the compiled form
the claim describes (fixed-width fields, variable data field, literal runs)
accepts it. -/
theorem claim_C7_format_compiler_escaped_groups :
    FormatParser_compile [] = .error "Format cannot be empty" ∧
    FormatParser_regexSearch hexExampleFormat hexExampleLine = some false ∧
    specFormatMatch hexExampleFormat hexExampleLine = some true ∧
    FormatParser_regexSearch hexExampleFormat
      "<length>11)\t<address>1234):<chunk>56) <checksum>5667)".data = some true := by
  refine ⟨rfl, ?_, ?_, ?_⟩
  · rfl
  · rfl
  · rfl

end ObjUtils
